import Mathlib

/-!
Verification development for the tele_scribe bot.

Shallow embedding of:
* the streaming transcript relay engine `streamTranscriptionToBot` (src/src/bot.ts),
* the batch-mode chunker `chunked` (src/src/util.ts),
* the batch session driver `transcribeMedia` and the cancellation registry
  `cancellations` (src/unnamed/part_001).

Strings are modelled as `List Char` (JS strings; only lengths and
concatenation matter to the properties below).  Timestamps (`Date.now()`)
are modelled as `Int` values supplied with each stream event.
-/

namespace TeleScribe

/-- `messagesDelay` from src/src/bot.ts line 204: delay between message
updates in milliseconds. -/
def messagesDelay : Int := 1000

/-- `charsInMessage` from src/src/bot.ts line 208: maximum characters in a
single Telegram message. -/
def charsInMessage : Nat := 4096

/-- `reservedChars` from src/src/bot.ts line 212: characters reserved for
status indicators like "Generating...". -/
def reservedChars : Nat := 23

/-- The literal in-progress suffix appended by the engine
(src/src/bot.ts line 260): a newline plus an italicized Generating marker. -/
def progressSuffix : List Char := "\n<em>Generating...</em>".toList

/-- The literal suffix appended on user cancellation
(src/unnamed/part_001 line 182). -/
def stoppedSuffix : List Char := "\n<b>Stopped</b>".toList

/-- One event of the transcription stream (src/src/bot.ts lines 242-292):
a text delta, the terminal marker `transcript.text.done`, or an unknown
chunk type (logged and ignored by the engine). -/
inductive StreamEvent where
  | delta (text : List Char)
  | done
  | other
deriving DecidableEq

/-- Length of the text carried by a delta event; 0 for other events. -/
def eventLen : StreamEvent → Nat
  | .delta d => d.length
  | .done => 0
  | .other => 0

/-- The mutable state of `streamTranscriptionToBot` (src/src/bot.ts lines
238-240 plus the `returnMsgId` parameter reassigned at line 270).
`nextMsgId` models Telegram's allocation of fresh message ids for
`ctx.reply`: each newly opened message gets a fresh id, larger than every
id handed out so far. -/
structure EngineState where
  returnMsgId : Nat
  nextMsgId : Nat
  lastMsgTime : Int
  buffer : List Char
  messageCount : Nat
deriving DecidableEq

/-- An outbound chat-gateway operation issued by the engine, in issue
order.  `pacedEdit` is the in-progress edit at line 260, `openMsg` the
`ctx.reply` at line 270, `closeEdit` the finalizing edit at line 281 and
`finalEdit` the final flush at line 308. -/
inductive Op where
  | pacedEdit (msgId : Nat) (text : List Char) (time : Int)
  | openMsg (msgId : Nat) (text : List Char) (time : Int)
  | closeEdit (msgId : Nat) (text : List Char) (time : Int)
  | finalEdit (msgId : Nat) (text : List Char)
deriving DecidableEq

/-- The text argument of an operation. -/
def opText : Op → List Char
  | .pacedEdit _ text _ => text
  | .openMsg _ text _ => text
  | .closeEdit _ text _ => text
  | .finalEdit _ text => text

/-- One iteration of the `for await` loop of `streamTranscriptionToBot`
(src/src/bot.ts lines 242-293), given the `Date.now()` value `now` read
at line 250.  Returns the updated state and the gateway calls issued, in
the order the code issues them: on overflow the code first awaits
`ctx.reply` for the new message (line 270) and only then issues the
closing edit of the old message (line 281). -/
def stepEvent (s : EngineState) (ev : StreamEvent) (now : Int) : EngineState × List Op :=
  match ev with
  | .delta d =>
      if (s.buffer ++ d).length + reservedChars ≤ charsInMessage then
        if messagesDelay < now - s.lastMsgTime then
          ({ s with buffer := s.buffer ++ d, lastMsgTime := now },
           [Op.pacedEdit s.returnMsgId (s.buffer ++ d ++ progressSuffix) now])
        else
          ({ s with buffer := s.buffer ++ d }, [])
      else
        ({ s with returnMsgId := s.nextMsgId,
                  nextMsgId := s.nextMsgId + 1,
                  messageCount := s.messageCount + 1,
                  lastMsgTime := now,
                  buffer := d },
         [Op.openMsg s.nextMsgId (d ++ progressSuffix) now,
          Op.closeEdit s.returnMsgId s.buffer now])
  | .done => (s, [])
  | .other => (s, [])

/-- Folds the event loop over a finite list of timed events, collecting
the issued operations in order. -/
def runEvents : EngineState → List (StreamEvent × Int) → EngineState × List Op
  | s, [] => (s, [])
  | s, (ev, t) :: rest =>
      let r := stepEvent s ev t
      let r2 := runEvents r.1 rest
      (r2.1, r.2 ++ r2.2)

/-- Every state the engine passes through (the initial state and the state
after each event), used to express invariants that hold after each
mutation of the buffer. -/
def runStates : EngineState → List (StreamEvent × Int) → List EngineState
  | s, [] => [s]
  | s, (ev, t) :: rest => s :: runStates (stepEvent s ev t).1 rest

/-- Engine state at entry of `streamTranscriptionToBot` (src/src/bot.ts
lines 238-240): empty buffer, `lastMsgTime = Date.now()`, one message so
far (the caller-created placeholder `returnMsgId`). -/
def initState (returnMsgId : Nat) (startTime : Int) : EngineState :=
  { returnMsgId := returnMsgId
    nextMsgId := returnMsgId + 1
    lastMsgTime := startTime
    buffer := []
    messageCount := 1 }

/-- `streamTranscriptionToBot` (src/src/bot.ts lines 226-309) as a trace
of gateway operations: the event loop followed by the final no-suffix
flush of the live message (line 308).  The wait at lines 295-299 only
delays the final edit and issues no operation. -/
def streamTranscriptionToBot (returnMsgId : Nat) (startTime : Int)
    (events : List (StreamEvent × Int)) : List Op :=
  let r := runEvents (initState returnMsgId startTime) events
  r.2 ++ [Op.finalEdit r.1.returnMsgId r.1.buffer]

/-- The delta texts of an event list, in order. -/
def deltasOf (events : List (StreamEvent × Int)) : List (List Char) :=
  events.filterMap fun p =>
    match p.1 with
    | .delta d => some d
    | .done => none
    | .other => none

/-- The finalized (non-superseded) texts of a trace: the closing edit of
each rotated-out message plus the final flush, in issue order. -/
def finalTexts (ops : List Op) : List (List Char) :=
  ops.filterMap fun op =>
    match op with
    | .closeEdit _ text _ => some text
    | .finalEdit _ text => some text
    | .pacedEdit _ _ _ => none
    | .openMsg _ _ _ => none

/-- The times of the paced in-progress edits of message `m`, in issue
order. -/
def pacedTimes (ops : List Op) (m : Nat) : List Int :=
  ops.filterMap fun op =>
    match op with
    | .pacedEdit i _ t => if i = m then some t else none
    | .openMsg _ _ _ => none
    | .closeEdit _ _ _ => none
    | .finalEdit _ _ => none

/-- Whether an operation opens the new message numbered `m`. -/
def isOpenOf (m : Nat) : Op → Bool
  | .openMsg i _ _ => i == m
  | _ => false

/-- Whether an operation is the closing edit of message `m`. -/
def isCloseOf (m : Nat) : Op → Bool
  | .closeEdit i _ _ => i == m
  | _ => false

/-- Whether an operation opens a new message (a rotation happened). -/
def isOpenOp : Op → Bool
  | .openMsg _ _ _ => true
  | _ => false

/-- `chunked` from src/src/util.ts lines 159-168: splits a string into
`Math.ceil(str.length / chunkSize)` slices `str.slice(i*chunkSize,
(i+1)*chunkSize)`.  For `chunkSize > 0`, `Math.ceil(L / C)` equals
`(L + C - 1) / C` in natural division.  (For `chunkSize = 0` the JS loop
does not terminate; all properties below assume a positive chunk size.) -/
def chunked (str : List Char) (chunkSize : Nat) : List (List Char) :=
  (List.range ((str.length + chunkSize - 1) / chunkSize)).map
    fun i => (str.drop (i * chunkSize)).take chunkSize

/-- The `cancellations` map of src/unnamed/part_001 line 41: a JS `Map`
from cancellation id (message id as string) to an `AbortController`,
modelled as an insertion-ordered association list with controllers
abstracted to numeric handles. -/
abbrev Registry := List (String × Nat)

/-- JS `Map.set` (src/unnamed/part_001 line 110): if the key is present
its value is replaced in place, otherwise the pair is appended. -/
def mapSet (m : Registry) (k : String) (v : Nat) : Registry :=
  if m.any (fun p => p.1 == k) then
    m.map fun p => if p.1 == k then (k, v) else p
  else
    m ++ [(k, v)]

/-- JS `Map.get` (src/unnamed/part_001 line 89). -/
def mapGet (m : Registry) (k : String) : Option Nat :=
  (m.find? (fun p => p.1 == k)).map Prod.snd

/-- JS `Map.delete` (src/unnamed/part_001 line 118). -/
def mapDelete (m : Registry) (k : String) : Registry :=
  m.filter fun p => ! (p.1 == k)

/-- Registry-affecting moments of one session's lifetime in the handler of
src/unnamed/part_001 lines 105-120: `cancellations.set` at session start
and the `.finally`-attached `cancellations.delete` when `transcribeMedia`
settles. -/
inductive SessionEvent where
  | start (tok : String) (handle : Nat)
  | complete (tok : String)
deriving DecidableEq

/-- Effect of one session event on the registry. -/
def applyEvent (m : Registry) : SessionEvent → Registry
  | .start tok h => mapSet m tok h
  | .complete tok => mapDelete m tok

/-- Registry contents after processing a list of session events. -/
def runRegistry (m : Registry) (events : List SessionEvent) : Registry :=
  events.foldl applyEvent m

/-- One run of the handler of src/unnamed/part_001 lines 105-120: its
token and handle, and whether the awaited placeholder `ctx.reply` at line
112 succeeded.  `cancellations.set` (line 110) runs before that await;
the `.finally` delete (lines 117-118) is attached only after it, so a
rejected reply exits the handler with the entry still registered and no
delete ever attached. -/
structure Session where
  tok : String
  handle : Nat
  replyOk : Bool
deriving DecidableEq

/-- The registry events of one session: the set at line 110 always
happens; the `.finally`-attached delete fires (once, when the
`transcribeMedia` promise settles — it resolves on success, error, and
cancellation alike) only if the placeholder reply succeeded. -/
def sessionTrace (s : Session) : List SessionEvent :=
  if s.replyOk then
    [SessionEvent.start s.tok s.handle, SessionEvent.complete s.tok]
  else
    [SessionEvent.start s.tok s.handle]

/-- Event trace of sequentially executed sessions (each ends before the
next starts, i.e. no concurrent in-flight sessions). -/
def seqSessions (sessions : List Session) : List SessionEvent :=
  (sessions.map sessionTrace).flatten

/-- A chat-gateway or filesystem action of the batch session driver
`transcribeMedia` (src/unnamed/part_001 lines 148-189).  `edit` carries
the text passed to `editMessageText` — `none` models the JS `undefined`
produced by `chunks.shift()!` on an empty chunk list — and whether HTML
formatting was passed. -/
inductive MediaOp where
  | edit (text : Option (List Char)) (html : Bool)
  | send (text : List Char)
  | deleteFile
deriving DecidableEq

/-- The number of awaited calls of `transcribeMedia` that observe the
cancellation signal: `util.download`, `util.extractAudioFromVideo` (video
notes only) and `transcribe`. -/
def numAwaits (isVideo : Bool) : Nat := if isVideo then 3 else 2

/-- The single cancellation edit of src/unnamed/part_001 line 182:
`editMessageText(returnMsg, returnMsg.text + "\n<b>Stopped</b>", htmlFmt)`. -/
def stoppedEdit (visibleText : List Char) : MediaOp :=
  MediaOp.edit (some (visibleText ++ stoppedSuffix)) true

/-- The success path of `transcribeMedia` (src/unnamed/part_001 lines
156-178 plus the `finally` at line 187): for video notes the original
download is deleted after audio extraction; then the live message is
edited to the first chunk, each remaining chunk is sent as a new message,
and the temporary file is deleted. -/
def successOps (isVideo : Bool) (transcript : List Char) : List MediaOp :=
  (if isVideo then [MediaOp.deleteFile] else [])
    ++ [MediaOp.edit (chunked transcript charsInMessage).head? false]
    ++ ((chunked transcript charsInMessage).drop 1).map MediaOp.send
    ++ [MediaOp.deleteFile]

/-- `transcribeMedia` (src/unnamed/part_001 lines 148-189) as a trace of
actions.  The cancellation signal is modelled by `cancelBefore`: `some k`
means the signal is in the aborted state from just before the `k`-th
signal-observing await onward (awaits numbered `0 ..< numAwaits isVideo`
in execution order: download, extraction for video notes, transcription),
so that await raises `AbortError`, caught at line 181 which issues the
single Stopped edit of the text currently held in `returnMsg` and
returns; the `finally` at line 187 deletes the temporary file when one
was assigned.  `none` means the signal never fires, and `some k` with
`k ≥ numAwaits isVideo` means it fires only after the last
signal-observing await returned — no later code consults the signal. -/
def transcribeMedia (isVideo : Bool) (visibleText transcript : List Char)
    (cancelBefore : Option Nat) : List MediaOp :=
  match cancelBefore with
  | none => successOps isVideo transcript
  | some k =>
      if k = 0 then
        [stoppedEdit visibleText]
      else if isVideo = true ∧ k ≤ 1 then
        [stoppedEdit visibleText, MediaOp.deleteFile]
      else if k ≤ numAwaits isVideo - 1 then
        (if isVideo then [MediaOp.deleteFile] else [])
          ++ [stoppedEdit visibleText, MediaOp.deleteFile]
      else
        successOps isVideo transcript

/-- Whether a media action is an `editMessageText` call. -/
def isEditOp : MediaOp → Bool
  | .edit _ _ => true
  | _ => false

/-- Whether a media action is a `sendMessage` call. -/
def isSendOp : MediaOp → Bool
  | .send _ => true
  | _ => false

/-! ### Batch-mode chunking -/

lemma chunked_flatten_take (c : Nat) (s : List Char) (n : Nat) :
    ((List.range n).map (fun i => (s.drop (i * c)).take c)).flatten = s.take (n * c) := by
  induction n with
  | zero => simp
  | succ n ih =>
      rw [List.range_succ, List.map_append, List.flatten_append]
      simp only [List.map_cons, List.map_nil, List.flatten_cons, List.flatten_nil,
        List.append_nil]
      rw [ih, Nat.succ_mul, List.take_add]

lemma numChunks_mul_bounds (L c : Nat) (hc : 0 < c) :
    L ≤ ((L + c - 1) / c) * c ∧ ((L + c - 1) / c) * c ≤ L + c - 1 ∨ L = 0 := by
  rcases Nat.eq_zero_or_pos L with hL | hL
  · exact Or.inr hL
  · left
    constructor
    · have h1 : (L + c - 1) / c < (L + c - 1) / c + 1 := Nat.lt_succ_self _
      have h2 : L + c - 1 < ((L + c - 1) / c + 1) * c :=
        (Nat.div_lt_iff_lt_mul hc).mp h1
      have h3 : ((L + c - 1) / c + 1) * c = ((L + c - 1) / c) * c + c :=
        Nat.succ_mul _ _
      omega
    · exact Nat.div_mul_le_self _ _

lemma chunked_flatten (s : List Char) (c : Nat) (hc : 0 < c) :
    (chunked s c).flatten = s := by
  rw [chunked, chunked_flatten_take]
  rcases numChunks_mul_bounds s.length c hc with ⟨h1, _⟩ | h0
  · exact List.take_of_length_le h1
  · have : s = [] := List.length_eq_zero.mp h0
    subst this
    simp

lemma chunked_getD (s : List Char) (c i : Nat)
    (hi : i < (s.length + c - 1) / c) :
    (chunked s c).getD i [] = (s.drop (i * c)).take c := by
  simp [chunked, List.getD_eq_getElem?_getD, List.getElem?_map, List.getElem?_range, hi]

/-- Claim C9: for every string of length `L` and chunk size `C > 0`,
`chunked` produces exactly `ceil(L/C)` chunks (the least `n` with
`L ≤ n*C`, computed as `(L + C - 1) / C`), every chunk except possibly
the last has length exactly `C`, every chunk has length at most `C`, and
concatenating the chunks in order reconstructs the string exactly. -/
theorem C9_chunked_spec (s : List Char) (c : Nat) (hc : 0 < c) :
    (chunked s c).length = (s.length + c - 1) / c
    ∧ s.length ≤ c * (chunked s c).length
    ∧ c * (chunked s c).length < s.length + c
    ∧ (∀ i, i + 1 < (chunked s c).length → ((chunked s c).getD i []).length = c)
    ∧ (∀ ch ∈ chunked s c, ch.length ≤ c)
    ∧ (chunked s c).flatten = s := by
  have hlen : (chunked s c).length = (s.length + c - 1) / c := by
    simp [chunked]
  refine ⟨hlen, ?_, ?_, ?_, ?_, chunked_flatten s c hc⟩
  · rw [hlen, Nat.mul_comm]
    rcases numChunks_mul_bounds s.length c hc with ⟨h1, _⟩ | h0
    · omega
    · rw [h0]
      exact Nat.zero_le _
  · rw [hlen, Nat.mul_comm]
    rcases numChunks_mul_bounds s.length c hc with ⟨_, h2⟩ | h0
    · omega
    · rw [h0]
      have hz : (0 + c - 1) / c = 0 := Nat.div_eq_of_lt (by omega)
      rw [hz]
      omega
  · intro i hi
    rw [hlen] at hi
    rw [chunked_getD s c i (by omega)]
    have hmul : (i + 2) * c ≤ ((s.length + c - 1) / c) * c :=
      Nat.mul_le_mul_right c (by omega)
    have hdiv : ((s.length + c - 1) / c) * c ≤ s.length + c - 1 :=
      Nat.div_mul_le_self _ _
    have h2 : (i + 2) * c = i * c + c + c := by ring
    simp only [List.length_take, List.length_drop]
    omega
  · intro ch hch
    rw [chunked] at hch
    obtain ⟨i, _, rfl⟩ := List.mem_map.mp hch
    simp

/-- Witness for C9 at a concrete input. -/
theorem C9_chunked_spec_witness :
    (chunked "abcdefgh".toList 3).length = (("abcdefgh".toList).length + 3 - 1) / 3
    ∧ ("abcdefgh".toList).length ≤ 3 * (chunked "abcdefgh".toList 3).length
    ∧ 3 * (chunked "abcdefgh".toList 3).length < ("abcdefgh".toList).length + 3
    ∧ (∀ i, i + 1 < (chunked "abcdefgh".toList 3).length →
        ((chunked "abcdefgh".toList 3).getD i []).length = 3)
    ∧ (∀ ch ∈ chunked "abcdefgh".toList 3, ch.length ≤ 3)
    ∧ (chunked "abcdefgh".toList 3).flatten = "abcdefgh".toList :=
  C9_chunked_spec "abcdefgh".toList 3 (by decide)

/-- Claim C10: for every chunk size `C > 0`, chunking the empty string
yields the empty list — zero chunks, not one empty chunk — so in batch
mode an empty transcription result yields no first slice (the
`chunks.shift()!` of src/unnamed/part_001 line 168 is `undefined`,
modelled as `none`) for the initial edit of the live message. -/
theorem C10_empty_chunks (c : Nat) (hc : 0 < c) (isVideo : Bool)
    (visibleText : List Char) :
    chunked [] c = []
    ∧ (chunked ([] : List Char) charsInMessage).head? = none
    ∧ (transcribeMedia isVideo visibleText [] none).filter isEditOp
        = [MediaOp.edit none false] := by
  have hempty : chunked ([] : List Char) c = [] := by
    have hz : (c - 1) / c = 0 := Nat.div_eq_of_lt (by omega)
    simp [chunked, hz]
  have hmain : chunked ([] : List Char) charsInMessage = [] := by
    simp [chunked, charsInMessage]
  refine ⟨hempty, by simp [hmain], ?_⟩
  cases isVideo <;>
    simp [transcribeMedia, successOps, hmain, isEditOp, List.filter]

/-- Witness for C10 at a concrete input. -/
theorem C10_empty_chunks_witness :
    chunked [] 4096 = []
    ∧ (chunked ([] : List Char) charsInMessage).head? = none
    ∧ (transcribeMedia false ['x'] [] none).filter isEditOp
        = [MediaOp.edit none false] :=
  C10_empty_chunks 4096 (by decide) false ['x']

/-! ### Cancellation registry -/

lemma runRegistry_append (m : Registry) (l1 l2 : List SessionEvent) :
    runRegistry m (l1 ++ l2) = runRegistry (runRegistry m l1) l2 :=
  List.foldl_append ..

lemma runRegistry_sessionTrace_empty (s : Session) (hok : s.replyOk = true) :
    runRegistry [] (sessionTrace s) = [] := by
  simp [runRegistry, sessionTrace, hok, applyEvent, mapSet, mapDelete, List.filter]

lemma runRegistry_seqSessions_empty (sessions : List Session)
    (hok : ∀ s ∈ sessions, s.replyOk = true) :
    runRegistry [] (seqSessions sessions) = [] := by
  induction sessions with
  | nil => rfl
  | cons s rest ih =>
      have hsplit : seqSessions (s :: rest) = sessionTrace s ++ seqSessions rest := by
        simp [seqSessions]
      rw [hsplit, runRegistry_append,
        runRegistry_sessionTrace_empty s (hok s (by simp)),
        ih (fun x hx => hok x (by simp [hx]))]

/-- Counterexample to claim C6 as stated: a session whose awaited
placeholder reply (src/unnamed/part_001 line 112) rejects exits the
handler after `cancellations.set` (line 110) but before the `.finally`
delete is attached (lines 117-118).  After that session has ended — an
error exit path, with no session in-flight — its entry is still in the
registry: the entry was not removed on every exit path and the registry
is not empty. -/
theorem C6_registry_counterexample :
    runRegistry [] (seqSessions [⟨"7", 1, false⟩]) = [("7", 1)]
    ∧ mapGet (runRegistry [] (seqSessions [⟨"7", 1, false⟩])) "7" = some 1
    ∧ runRegistry [] (seqSessions [⟨"7", 1, false⟩]) ≠ [] := by
  refine ⟨by decide, by decide, by decide⟩

/-- Claim C6, amended: provided every session's awaited placeholder reply
succeeds — so that the `.finally` delete of lines 117-118 is attached —
entries of the cancellation registry track in-flight sessions.  For
sequentially executed sessions (no concurrency): the registry is empty
after all sessions complete; and for every session, its token maps to its
handle right after the session's `set` and is absent right after the
session's `.finally`-driven `delete`.  (The unamended claim, covering
every exit path, is refuted by `C6_registry_counterexample`: a rejected
placeholder reply leaks the entry.) -/
theorem C6_registry_lifecycle (sessions : List Session)
    (hok : ∀ s ∈ sessions, s.replyOk = true) :
    runRegistry [] (seqSessions sessions) = []
    ∧ (∀ pre s post, sessions = pre ++ s :: post →
        mapGet (runRegistry []
            (seqSessions pre ++ [SessionEvent.start s.tok s.handle])) s.tok
            = some s.handle
        ∧ mapGet (runRegistry [] (seqSessions pre ++ sessionTrace s)) s.tok
            = none) := by
  refine ⟨runRegistry_seqSessions_empty sessions hok, ?_⟩
  intro pre s post hsplit
  have hpre : ∀ x ∈ pre, x.replyOk = true := by
    intro x hx
    exact hok x (by simp [hsplit, hx])
  have hs : s.replyOk = true := hok s (by simp [hsplit])
  constructor
  · rw [runRegistry_append, runRegistry_seqSessions_empty pre hpre]
    simp [runRegistry, applyEvent, mapSet, mapGet]
  · rw [runRegistry_append, runRegistry_seqSessions_empty pre hpre,
      runRegistry_sessionTrace_empty s hs]
    simp [mapGet]

/-- Witness for C6's amended statement: a two-session run in which both
placeholder replies succeed, inspecting the first session. -/
theorem C6_registry_lifecycle_witness :
    runRegistry [] (seqSessions [⟨"7", 1, true⟩, ⟨"8", 2, true⟩]) = []
    ∧ mapGet (runRegistry []
        (seqSessions [] ++ [SessionEvent.start "7" 1])) "7" = some 1
    ∧ mapGet (runRegistry []
        (seqSessions [] ++ sessionTrace ⟨"7", 1, true⟩)) "7" = none := by
  have h := C6_registry_lifecycle [⟨"7", 1, true⟩, ⟨"8", 2, true⟩] (by decide)
  have h2 := h.2 [] ⟨"7", 1, true⟩ [⟨"8", 2, true⟩] rfl
  exact ⟨h.1, h2.1, h2.2⟩

/-- Counterexample to claim C7 as stated: `register` is `Map.set`
(src/unnamed/part_001 line 110), which does not fail on an
already-registered token — registering token "42" with handle 2 while
handle 1 is still registered silently replaces handle 1. -/
theorem C7_register_counterexample :
    mapGet (mapSet (mapSet [] "42" 1) "42" 2) "42" = some 2
    ∧ mapGet (mapSet (mapSet [] "42" 1) "42" 2) "42" ≠ some 1
    ∧ (mapSet (mapSet ([] : Registry) "42" 1) "42" 2).length = 1 := by
  refine ⟨by decide, by decide, by decide⟩

/-- Claim C7, amended: registering a token that already has a
not-yet-unregistered entry does not fail; it silently replaces the
existing cancellation handle with the new one (JS `Map.set` semantics) —
token uniqueness is relied upon, not enforced. -/
theorem C7_register_replaces (m : Registry) (k : String) (v : Nat) :
    mapGet (mapSet m k v) k = some v := by
  induction m with
  | nil => simp [mapSet, mapGet]
  | cons p rest ih =>
      by_cases hp : p.1 = k
      · simp [mapSet, mapGet, hp, List.find?]
      · have hb : (p.1 == k) = false := beq_false_of_ne hp
        have hstep : mapSet (p :: rest) k v = p :: mapSet rest k v := by
          by_cases hr : rest.any (fun q => q.1 == k)
          · simp [mapSet, hb, hr]
            exact fun h => absurd h hp
          · simp [mapSet, hb, hr]
        rw [hstep, mapGet, List.find?]
        rw [hb]
        exact ih

/-! ### Cancellation of a batch session -/

/-- Claim C5: if the cancellation signal fires while the session awaits
the media download, audio extraction, or transcription provider call
(await index `k < numAwaits`), the session performs exactly one
`editMessageText` call — appending the Stopped marker to the text
currently visible in the live message — and sends no further messages
(no final flush of the transcript).  If the signal fires only after the
transcription call has returned (`k ≥ numAwaits`), it changes nothing:
the trace equals the never-cancelled trace. -/
theorem C5_cancellation (isVideo : Bool) (visibleText transcript : List Char)
    (k : Nat) :
    (k < numAwaits isVideo →
      (transcribeMedia isVideo visibleText transcript (some k)).filter isEditOp
          = [stoppedEdit visibleText]
        ∧ (transcribeMedia isVideo visibleText transcript (some k)).filter isSendOp
          = [])
    ∧ (numAwaits isVideo ≤ k →
        transcribeMedia isVideo visibleText transcript (some k)
          = transcribeMedia isVideo visibleText transcript none) := by
  constructor
  · intro hk
    cases isVideo with
    | false =>
        simp [numAwaits] at hk
        interval_cases k <;>
          simp [transcribeMedia, numAwaits, stoppedEdit, isEditOp, isSendOp,
            List.filter]
    | true =>
        simp [numAwaits] at hk
        interval_cases k <;>
          simp [transcribeMedia, numAwaits, stoppedEdit, isEditOp, isSendOp,
            List.filter]
  · intro hk
    cases isVideo with
    | false =>
        have hnum : numAwaits false = 2 := rfl
        rw [hnum] at hk
        have hnot1 : ¬ (false = true ∧ k ≤ 1) := by
          rintro ⟨h, -⟩
          cases h
        simp only [transcribeMedia]
        rw [if_neg (by omega : ¬ k = 0), if_neg hnot1,
          if_neg (by rw [hnum]; omega : ¬ k ≤ numAwaits false - 1)]
    | true =>
        have hnum : numAwaits true = 3 := rfl
        rw [hnum] at hk
        simp only [transcribeMedia]
        rw [if_neg (by omega : ¬ k = 0),
          if_neg (by simp; omega : ¬ (True ∧ k ≤ 1)),
          if_neg (by rw [hnum]; omega : ¬ k ≤ numAwaits true - 1)]

/-- Witness for C5: cancellation during the download of a voice note, and
a signal that fires only after transcription completed. -/
theorem C5_cancellation_witness :
    ((transcribeMedia false ['x'] ['y'] (some 0)).filter isEditOp
        = [stoppedEdit ['x']]
      ∧ (transcribeMedia false ['x'] ['y'] (some 0)).filter isSendOp = [])
    ∧ transcribeMedia false ['x'] ['y'] (some 9)
        = transcribeMedia false ['x'] ['y'] none :=
  ⟨(C5_cancellation false ['x'] ['y'] 0).1 (by decide),
   (C5_cancellation false ['x'] ['y'] 9).2 (by decide)⟩

/-! ### Streaming relay engine -/

lemma progressSuffix_length : progressSuffix.length = reservedChars := by decide

lemma runEvents_nil (s : EngineState) : runEvents s [] = (s, []) := rfl

lemma runEvents_cons (s : EngineState) (ev : StreamEvent) (t : Int)
    (rest : List (StreamEvent × Int)) :
    runEvents s ((ev, t) :: rest)
      = ((runEvents (stepEvent s ev t).1 rest).1,
         (stepEvent s ev t).2 ++ (runEvents (stepEvent s ev t).1 rest).2) := rfl

lemma runStates_nil (s : EngineState) : runStates s [] = [s] := rfl

lemma runStates_cons (s : EngineState) (ev : StreamEvent) (t : Int)
    (rest : List (StreamEvent × Int)) :
    runStates s ((ev, t) :: rest) = s :: runStates (stepEvent s ev t).1 rest := rfl

lemma stepEvent_delta_fit_edit (s : EngineState) (d : List Char) (now : Int)
    (hfit : (s.buffer ++ d).length + reservedChars ≤ charsInMessage)
    (htime : messagesDelay < now - s.lastMsgTime) :
    stepEvent s (StreamEvent.delta d) now
      = ({ s with buffer := s.buffer ++ d, lastMsgTime := now },
         [Op.pacedEdit s.returnMsgId (s.buffer ++ d ++ progressSuffix) now]) := by
  simp only [stepEvent]
  rw [if_pos hfit, if_pos htime]

lemma stepEvent_delta_fit_noedit (s : EngineState) (d : List Char) (now : Int)
    (hfit : (s.buffer ++ d).length + reservedChars ≤ charsInMessage)
    (htime : ¬ messagesDelay < now - s.lastMsgTime) :
    stepEvent s (StreamEvent.delta d) now
      = ({ s with buffer := s.buffer ++ d }, []) := by
  simp only [stepEvent]
  rw [if_pos hfit, if_neg htime]

lemma stepEvent_delta_overflow (s : EngineState) (d : List Char) (now : Int)
    (hfit : ¬ (s.buffer ++ d).length + reservedChars ≤ charsInMessage) :
    stepEvent s (StreamEvent.delta d) now
      = ({ s with returnMsgId := s.nextMsgId,
                  nextMsgId := s.nextMsgId + 1,
                  messageCount := s.messageCount + 1,
                  lastMsgTime := now,
                  buffer := d },
         [Op.openMsg s.nextMsgId (d ++ progressSuffix) now,
          Op.closeEdit s.returnMsgId s.buffer now]) := by
  simp only [stepEvent]
  rw [if_neg hfit]

lemma stepEvent_done (s : EngineState) (now : Int) :
    stepEvent s StreamEvent.done now = (s, []) := rfl

lemma stepEvent_other (s : EngineState) (now : Int) :
    stepEvent s StreamEvent.other now = (s, []) := rfl

lemma finalTexts_append (l1 l2 : List Op) :
    finalTexts (l1 ++ l2) = finalTexts l1 ++ finalTexts l2 := by
  simp [finalTexts]

lemma pacedTimes_append (l1 l2 : List Op) (m : Nat) :
    pacedTimes (l1 ++ l2) m = pacedTimes l1 m ++ pacedTimes l2 m := by
  simp [pacedTimes]

lemma runEvents_conservation (events : List (StreamEvent × Int)) (s : EngineState) :
    (finalTexts (runEvents s events).2).flatten ++ (runEvents s events).1.buffer
      = s.buffer ++ (deltasOf events).flatten := by
  induction events generalizing s with
  | nil => simp [runEvents, finalTexts, deltasOf]
  | cons p rest ih =>
      obtain ⟨ev, t⟩ := p
      rw [runEvents_cons, finalTexts_append, List.flatten_append, List.append_assoc,
        ih]
      cases ev with
      | done => simp [stepEvent_done, finalTexts, deltasOf]
      | other => simp [stepEvent_other, finalTexts, deltasOf]
      | delta d =>
          by_cases hfit : (s.buffer ++ d).length + reservedChars ≤ charsInMessage
          · by_cases htime : messagesDelay < t - s.lastMsgTime
            · rw [stepEvent_delta_fit_edit s d t hfit htime]
              simp [finalTexts, deltasOf]
            · rw [stepEvent_delta_fit_noedit s d t hfit htime]
              simp [finalTexts, deltasOf]
          · rw [stepEvent_delta_overflow s d t hfit]
            simp [finalTexts, deltasOf]

lemma deltasOf_timed (timedDeltas : List (List Char × Int)) (doneTime : Int) :
    deltasOf (timedDeltas.map (fun p => (StreamEvent.delta p.1, p.2))
        ++ [(StreamEvent.done, doneTime)])
      = timedDeltas.map Prod.fst := by
  induction timedDeltas with
  | nil => rfl
  | cons p rest ih => simpa [deltasOf] using ih

/-- Claim C1: for every finite sequence of timed deltas followed by the
terminal marker, the finalized message texts (the closing edit issued at
each rotation plus the final no-suffix flush), concatenated in the order
the messages were opened, equal the concatenation of all deltas — no
characters lost or duplicated. -/
theorem C1_stream_conservation (timedDeltas : List (List Char × Int))
    (returnMsgId : Nat) (startTime doneTime : Int) :
    (finalTexts (streamTranscriptionToBot returnMsgId startTime
        (timedDeltas.map (fun p => (StreamEvent.delta p.1, p.2))
          ++ [(StreamEvent.done, doneTime)]))).flatten
      = (timedDeltas.map Prod.fst).flatten := by
  simp only [streamTranscriptionToBot]
  rw [finalTexts_append, List.flatten_append]
  have hfin : finalTexts [Op.finalEdit
      (runEvents (initState returnMsgId startTime)
        (timedDeltas.map (fun p => (StreamEvent.delta p.1, p.2))
          ++ [(StreamEvent.done, doneTime)])).1.returnMsgId
      (runEvents (initState returnMsgId startTime)
        (timedDeltas.map (fun p => (StreamEvent.delta p.1, p.2))
          ++ [(StreamEvent.done, doneTime)])).1.buffer]
      = [(runEvents (initState returnMsgId startTime)
          (timedDeltas.map (fun p => (StreamEvent.delta p.1, p.2))
            ++ [(StreamEvent.done, doneTime)])).1.buffer] := rfl
  rw [hfin]
  have h := runEvents_conservation
    (timedDeltas.map (fun p => (StreamEvent.delta p.1, p.2))
      ++ [(StreamEvent.done, doneTime)]) (initState returnMsgId startTime)
  rw [deltasOf_timed] at h
  simpa using h

/-- Claim C3: the engine rotates (closes the live message and opens a new
one) on a delta exactly when the candidate `buffer ++ delta` is longer
than `charsInMessage - reservedChars`; on rotation the buffer is reset to
exactly that delta and the last-update timestamp is set to `now`; in
particular a single delta longer than the threshold forces rotation even
from an empty buffer. -/
theorem C3_threshold (s : EngineState) (d : List Char) (now : Int) :
    (((stepEvent s (StreamEvent.delta d) now).2.any isOpenOp) = true
        ↔ charsInMessage - reservedChars < (s.buffer ++ d).length)
    ∧ (charsInMessage - reservedChars < (s.buffer ++ d).length →
        (stepEvent s (StreamEvent.delta d) now).1.buffer = d
        ∧ (stepEvent s (StreamEvent.delta d) now).1.lastMsgTime = now)
    ∧ (s.buffer = [] → charsInMessage - reservedChars < d.length →
        ((stepEvent s (StreamEvent.delta d) now).2.any isOpenOp) = true) := by
  by_cases hfit : (s.buffer ++ d).length + reservedChars ≤ charsInMessage
  · have hlt : ¬ charsInMessage - reservedChars < (s.buffer ++ d).length := by
      simp only [charsInMessage, reservedChars] at hfit ⊢
      omega
    have hops : (stepEvent s (StreamEvent.delta d) now).2.any isOpenOp = false := by
      by_cases htime : messagesDelay < now - s.lastMsgTime
      · rw [stepEvent_delta_fit_edit s d now hfit htime]
        rfl
      · rw [stepEvent_delta_fit_noedit s d now hfit htime]
        rfl
    refine ⟨?_, fun h => absurd h hlt, ?_⟩
    · rw [hops]
      simp only [Bool.false_eq_true, false_iff]
      exact hlt
    · intro hbuf hdlen
      exfalso
      apply hlt
      rw [hbuf]
      simpa using hdlen
  · have hlt : charsInMessage - reservedChars < (s.buffer ++ d).length := by
      simp only [charsInMessage, reservedChars] at hfit ⊢
      omega
    rw [stepEvent_delta_overflow s d now hfit]
    exact ⟨iff_of_true rfl hlt, fun _ => ⟨rfl, rfl⟩, fun _ _ => rfl⟩

/-- Witness for C3: an oversize single delta (4074 chars) on an empty
buffer forces rotation, resets the buffer to the delta and the timestamp
to now. -/
theorem C3_threshold_witness :
    ((stepEvent (initState 1 0) (StreamEvent.delta (List.replicate 4074 'a')) 7).2.any
        isOpenOp) = true
    ∧ (stepEvent (initState 1 0) (StreamEvent.delta (List.replicate 4074 'a')) 7).1.buffer
        = List.replicate 4074 'a'
    ∧ (stepEvent (initState 1 0) (StreamEvent.delta (List.replicate 4074 'a')) 7).1.lastMsgTime
        = 7 := by
  have h := C3_threshold (initState 1 0) (List.replicate 4074 'a') 7
  have hd : charsInMessage - reservedChars < (List.replicate 4074 'a').length := by
    rw [List.length_replicate]
    decide
  have hc : charsInMessage - reservedChars
      < ((initState 1 0).buffer ++ List.replicate 4074 'a').length := by
    rw [show (initState 1 0).buffer = [] from rfl, List.nil_append]
    exact hd
  exact ⟨h.2.2 rfl hd, (h.2.1 hc).1, (h.2.1 hc).2⟩

lemma two_delta_trace :
    streamTranscriptionToBot 1 0
        [(StreamEvent.delta ['a', 'b'], 0),
         (StreamEvent.delta (List.replicate 4072 'c'), 0),
         (StreamEvent.done, 0)]
      = [Op.openMsg 2 (List.replicate 4072 'c' ++ progressSuffix) 0,
         Op.closeEdit 1 ['a', 'b'] 0,
         Op.finalEdit 2 (List.replicate 4072 'c')] := by
  have hfit1 : ((initState 1 0).buffer ++ ['a', 'b']).length + reservedChars
      ≤ charsInMessage := by
    rw [show (initState 1 0).buffer = [] from rfl]
    decide
  have htime1 : ¬ messagesDelay < (0 : Int) - (initState 1 0).lastMsgTime := by
    rw [show (initState 1 0).lastMsgTime = 0 from rfl]
    decide
  have hstep1 := stepEvent_delta_fit_noedit (initState 1 0) ['a', 'b'] 0 hfit1 htime1
  have hfit2 : ¬ ((({ initState 1 0 with
          buffer := (initState 1 0).buffer ++ ['a', 'b'] } : EngineState).buffer
        ++ List.replicate 4072 'c').length + reservedChars ≤ charsInMessage) := by
    simp only [show (initState 1 0).buffer = [] from rfl, List.nil_append]
    simp only [List.length_append, List.length_replicate]
    decide
  have hstep2 := stepEvent_delta_overflow
    ({ initState 1 0 with buffer := (initState 1 0).buffer ++ ['a', 'b'] })
    (List.replicate 4072 'c') 0 hfit2
  simp only [streamTranscriptionToBot, runEvents_cons, hstep1, hstep2, stepEvent_done,
    runEvents_nil]
  rfl

/-- Counterexample to claim C4 as stated: in the run below message 2 is
opened by `ctx.reply` (src/src/bot.ts line 270) strictly before the
closing edit of message 1 is issued (line 281) — the trace's first
open-of-2 operation precedes its first close-of-1 operation, so the
closing edit is not issued before the new message is opened. -/
theorem C4_order_counterexample :
    ((streamTranscriptionToBot 1 0
        [(StreamEvent.delta ['a', 'b'], 0),
         (StreamEvent.delta (List.replicate 4072 'c'), 0),
         (StreamEvent.done, 0)]).any (isOpenOf 2)) = true
    ∧ ((streamTranscriptionToBot 1 0
        [(StreamEvent.delta ['a', 'b'], 0),
         (StreamEvent.delta (List.replicate 4072 'c'), 0),
         (StreamEvent.done, 0)]).any (isCloseOf 1)) = true
    ∧ (streamTranscriptionToBot 1 0
        [(StreamEvent.delta ['a', 'b'], 0),
         (StreamEvent.delta (List.replicate 4072 'c'), 0),
         (StreamEvent.done, 0)]).findIdx (isOpenOf 2)
      < (streamTranscriptionToBot 1 0
        [(StreamEvent.delta ['a', 'b'], 0),
         (StreamEvent.delta (List.replicate 4072 'c'), 0),
         (StreamEvent.done, 0)]).findIdx (isCloseOf 1) := by
  rw [two_delta_trace]
  refine ⟨rfl, rfl, by decide⟩

/-- Claim C4, amended: on every rotation the engine first opens the new
outbound message (initial text delta plus progress suffix) and then
issues the closing edit of the previously live message (text exactly the
buffer, no suffix); both operations are issued within the rotation, in
that order, before any later event is processed. -/
theorem C4_order_amended (s : EngineState) (d : List Char) (now : Int)
    (h : charsInMessage - reservedChars < (s.buffer ++ d).length) :
    (stepEvent s (StreamEvent.delta d) now).2
      = [Op.openMsg s.nextMsgId (d ++ progressSuffix) now,
         Op.closeEdit s.returnMsgId s.buffer now] := by
  have hfit : ¬ (s.buffer ++ d).length + reservedChars ≤ charsInMessage := by
    simp only [charsInMessage, reservedChars] at h ⊢
    omega
  rw [stepEvent_delta_overflow s d now hfit]

/-- Witness for C4's amended statement at a concrete rotation. -/
theorem C4_order_amended_witness :
    (stepEvent (initState 1 0) (StreamEvent.delta (List.replicate 4074 'a')) 7).2
      = [Op.openMsg 2 (List.replicate 4074 'a' ++ progressSuffix) 7,
         Op.closeEdit 1 [] 7] :=
  C4_order_amended (initState 1 0) (List.replicate 4074 'a') 7
    (by rw [show (initState 1 0).buffer = [] from rfl, List.nil_append,
          List.length_replicate]
        decide)

lemma oversize_single_trace :
    streamTranscriptionToBot 1 0
        [(StreamEvent.delta (List.replicate 4074 'a'), 0), (StreamEvent.done, 0)]
      = [Op.openMsg 2 (List.replicate 4074 'a' ++ progressSuffix) 0,
         Op.closeEdit 1 [] 0,
         Op.finalEdit 2 (List.replicate 4074 'a')] := by
  have hfit : ¬ ((initState 1 0).buffer ++ List.replicate 4074 'a').length
      + reservedChars ≤ charsInMessage := by
    rw [show (initState 1 0).buffer = [] from rfl, List.nil_append,
      List.length_replicate]
    decide
  have hstep := stepEvent_delta_overflow (initState 1 0) (List.replicate 4074 'a') 0 hfit
  simp only [streamTranscriptionToBot, runEvents_cons, hstep, stepEvent_done,
    runEvents_nil]
  rfl

/-- Counterexample to claim C2 as stated: on the delta sequence whose
single delta is 4074 characters, the engine opens a rotation message
whose initial text (delta plus progress suffix) is 4097 characters —
exceeding `charsInMessage` — and the buffer after the rotation mutation
violates `buffer.length + reservedChars ≤ charsInMessage`. -/
theorem C2_limit_counterexample :
    (Op.openMsg 2 (List.replicate 4074 'a' ++ progressSuffix) 0
        ∈ streamTranscriptionToBot 1 0
          [(StreamEvent.delta (List.replicate 4074 'a'), 0), (StreamEvent.done, 0)])
    ∧ charsInMessage
        < (opText (Op.openMsg 2 (List.replicate 4074 'a' ++ progressSuffix) 0)).length
    ∧ ((stepEvent (initState 1 0) (StreamEvent.delta (List.replicate 4074 'a')) 0).1
        ∈ runStates (initState 1 0)
          [(StreamEvent.delta (List.replicate 4074 'a'), 0), (StreamEvent.done, 0)])
    ∧ charsInMessage
        < (stepEvent (initState 1 0)
            (StreamEvent.delta (List.replicate 4074 'a')) 0).1.buffer.length
          + reservedChars := by
  have hfit : ¬ ((initState 1 0).buffer ++ List.replicate 4074 'a').length
      + reservedChars ≤ charsInMessage := by
    rw [show (initState 1 0).buffer = [] from rfl, List.nil_append,
      List.length_replicate]
    decide
  have hstep := stepEvent_delta_overflow (initState 1 0) (List.replicate 4074 'a') 0 hfit
  refine ⟨?_, ?_, ?_, ?_⟩
  · rw [oversize_single_trace]
    exact List.mem_cons_self _ _
  · show charsInMessage < (List.replicate 4074 'a' ++ progressSuffix).length
    rw [List.length_append, List.length_replicate, progressSuffix_length]
    decide
  · simp only [runStates_cons, stepEvent_done, runStates_nil]
    exact List.mem_cons_of_mem _ (List.mem_cons_self _ _)
  · have hbuf : (stepEvent (initState 1 0)
        (StreamEvent.delta (List.replicate 4074 'a')) 0).1.buffer
        = List.replicate 4074 'a' := by
      rw [hstep]
    rw [hbuf, List.length_replicate]
    decide

lemma runEvents_bounded (events : List (StreamEvent × Int)) (s : EngineState)
    (hb : s.buffer.length + reservedChars ≤ charsInMessage)
    (hd : ∀ p ∈ events, eventLen p.1 + reservedChars ≤ charsInMessage) :
    (∀ st ∈ runStates s events, st.buffer.length + reservedChars ≤ charsInMessage)
    ∧ (∀ op ∈ (runEvents s events).2, (opText op).length ≤ charsInMessage)
    ∧ (runEvents s events).1.buffer.length + reservedChars ≤ charsInMessage := by
  induction events generalizing s with
  | nil =>
      refine ⟨?_, ?_, by simpa [runEvents_nil] using hb⟩
      · intro st hst
        rw [runStates_nil] at hst
        simp only [List.mem_singleton] at hst
        subst hst
        exact hb
      · intro op hop
        rw [runEvents_nil] at hop
        simp at hop
  | cons p rest ih =>
      obtain ⟨ev, t⟩ := p
      have hd0 : eventLen ev + reservedChars ≤ charsInMessage := hd (ev, t) (by simp)
      have hdr : ∀ q ∈ rest, eventLen q.1 + reservedChars ≤ charsInMessage :=
        fun q hq => hd q (by simp [hq])
      rw [runEvents_cons, runStates_cons]
      cases ev with
      | done =>
          rw [stepEvent_done]
          have ih' := ih s hb hdr
          refine ⟨?_, by simpa using ih'.2.1, ih'.2.2⟩
          intro st hst
          rcases List.mem_cons.mp hst with rfl | hst'
          · exact hb
          · exact ih'.1 st hst'
      | other =>
          rw [stepEvent_other]
          have ih' := ih s hb hdr
          refine ⟨?_, by simpa using ih'.2.1, ih'.2.2⟩
          intro st hst
          rcases List.mem_cons.mp hst with rfl | hst'
          · exact hb
          · exact ih'.1 st hst'
      | delta d =>
          have hdlen : d.length + reservedChars ≤ charsInMessage := hd0
          by_cases hfit : (s.buffer ++ d).length + reservedChars ≤ charsInMessage
          · have hb' : (s.buffer ++ d).length + reservedChars ≤ charsInMessage := hfit
            by_cases htime : messagesDelay < t - s.lastMsgTime
            · rw [stepEvent_delta_fit_edit s d t hfit htime]
              have ih' := ih { s with buffer := s.buffer ++ d, lastMsgTime := t }
                hb' hdr
              refine ⟨?_, ?_, ih'.2.2⟩
              · intro st hst
                rcases List.mem_cons.mp hst with rfl | hst'
                · exact hb
                · exact ih'.1 st hst'
              · intro op hop
                rcases List.mem_append.mp hop with h1 | h2
                · simp only [List.mem_singleton] at h1
                  subst h1
                  show (s.buffer ++ d ++ progressSuffix).length ≤ charsInMessage
                  rw [List.length_append (s.buffer ++ d), progressSuffix_length]
                  omega
                · exact ih'.2.1 op h2
            · rw [stepEvent_delta_fit_noedit s d t hfit htime]
              have ih' := ih { s with buffer := s.buffer ++ d } hb' hdr
              refine ⟨?_, by simpa using ih'.2.1, ih'.2.2⟩
              intro st hst
              rcases List.mem_cons.mp hst with rfl | hst'
              · exact hb
              · exact ih'.1 st hst'
          · rw [stepEvent_delta_overflow s d t hfit]
            have ih' := ih ⟨s.nextMsgId, s.nextMsgId + 1, t, d, s.messageCount + 1⟩
              (by simpa [eventLen] using hdlen) hdr
            refine ⟨?_, ?_, ih'.2.2⟩
            · intro st hst
              rcases List.mem_cons.mp hst with rfl | hst'
              · exact hb
              · exact ih'.1 st hst'
            · intro op hop
              rcases List.mem_append.mp hop with h1 | h2
              · rcases List.mem_cons.mp h1 with rfl | h1'
                · show (d ++ progressSuffix).length ≤ charsInMessage
                  rw [List.length_append, progressSuffix_length]
                  omega
                · simp only [List.mem_singleton] at h1'
                  subst h1'
                  show s.buffer.length ≤ charsInMessage
                  omega
              · exact ih'.2.1 op h2

/-- Claim C2, amended: provided every delta is at most
`charsInMessage - reservedChars` (4073) characters long, the invariant
`buffer.length + reservedChars ≤ charsInMessage` holds in the initial
state and after every event, and no operation the engine issues —
in-progress edit, rotation open, closing edit, or final flush — carries a
text longer than `charsInMessage`.  (The unamended claim, quantifying
over all delta sequences, is refuted by `C2_limit_counterexample`.) -/
theorem C2_length_invariant (returnMsgId : Nat) (startTime : Int)
    (events : List (StreamEvent × Int))
    (hd : ∀ p ∈ events, eventLen p.1 ≤ charsInMessage - reservedChars) :
    (∀ st ∈ runStates (initState returnMsgId startTime) events,
        st.buffer.length + reservedChars ≤ charsInMessage)
    ∧ (∀ op ∈ streamTranscriptionToBot returnMsgId startTime events,
        (opText op).length ≤ charsInMessage) := by
  have hd' : ∀ p ∈ events, eventLen p.1 + reservedChars ≤ charsInMessage := by
    intro p hp
    have := hd p hp
    simp only [charsInMessage, reservedChars] at this ⊢
    omega
  have h := runEvents_bounded events (initState returnMsgId startTime)
    (by simp [initState, charsInMessage, reservedChars]) hd'
  refine ⟨h.1, ?_⟩
  intro op hop
  simp only [streamTranscriptionToBot] at hop
  rcases List.mem_append.mp hop with h1 | h2
  · exact h.2.1 op h1
  · simp only [List.mem_singleton] at h2
    subst h2
    show (runEvents (initState returnMsgId startTime) events).1.buffer.length
        ≤ charsInMessage
    have := h.2.2
    omega

/-- Witness for C2's amended statement on a short delta sequence. -/
theorem C2_length_invariant_witness :
    (∀ st ∈ runStates (initState 1 0)
        [(StreamEvent.delta ['h', 'i'], 0), (StreamEvent.done, 0)],
        st.buffer.length + reservedChars ≤ charsInMessage)
    ∧ (∀ op ∈ streamTranscriptionToBot 1 0
        [(StreamEvent.delta ['h', 'i'], 0), (StreamEvent.done, 0)],
        (opText op).length ≤ charsInMessage) :=
  C2_length_invariant 1 0
    [(StreamEvent.delta ['h', 'i'], 0), (StreamEvent.done, 0)] (by decide)

lemma pacedTimes_single_paced (i : Nat) (txt : List Char) (t : Int) (m : Nat) :
    pacedTimes [Op.pacedEdit i txt t] m = if i = m then [t] else [] := by
  by_cases h : i = m <;> simp [pacedTimes, h]

lemma pacedTimes_rot_ops (i j : Nat) (txt1 txt2 : List Char) (t : Int) (m : Nat) :
    pacedTimes [Op.openMsg i txt1 t, Op.closeEdit j txt2 t] m = [] := by
  simp [pacedTimes]

lemma runEvents_paced_chain (events : List (StreamEvent × Int)) (s : EngineState)
    (hlt : s.returnMsgId < s.nextMsgId) (m : Nat) :
    List.Chain' (fun a b => a + messagesDelay < b)
        (pacedTimes (runEvents s events).2 m)
    ∧ (pacedTimes (runEvents s events).2 m ≠ [] →
        m = s.returnMsgId ∨ s.nextMsgId ≤ m)
    ∧ (m = s.returnMsgId →
        ∀ x, (pacedTimes (runEvents s events).2 m).head? = some x →
          s.lastMsgTime + messagesDelay < x) := by
  induction events generalizing s with
  | nil => simp [runEvents_nil, pacedTimes]
  | cons p rest ih =>
      obtain ⟨ev, t⟩ := p
      rw [runEvents_cons]
      cases ev with
      | done =>
          rw [stepEvent_done]
          simpa using ih s hlt
      | other =>
          rw [stepEvent_other]
          simpa using ih s hlt
      | delta d =>
          by_cases hfit : (s.buffer ++ d).length + reservedChars ≤ charsInMessage
          · by_cases htime : messagesDelay < t - s.lastMsgTime
            · simp only [stepEvent_delta_fit_edit s d t hfit htime,
                pacedTimes_append, pacedTimes_single_paced]
              have ih' := ih ⟨s.returnMsgId, s.nextMsgId, t, s.buffer ++ d,
                s.messageCount⟩ hlt
              by_cases hm : s.returnMsgId = m
              · rw [if_pos hm]
                refine ⟨?_, fun _ => Or.inl hm.symm, ?_⟩
                · rw [List.singleton_append]
                  refine (List.chain'_cons').mpr ⟨?_, ih'.1⟩
                  intro y hy
                  exact ih'.2.2 hm.symm y (Option.mem_def.mp hy)
                · intro _ x hx
                  rw [List.singleton_append, List.head?_cons] at hx
                  simp only [Option.some.injEq] at hx
                  omega
              · rw [if_neg hm, List.nil_append]
                refine ⟨ih'.1, ih'.2.1, ?_⟩
                intro h
                exact absurd h.symm hm
            · simp only [stepEvent_delta_fit_noedit s d t hfit htime,
                List.nil_append]
              exact ih ⟨s.returnMsgId, s.nextMsgId, s.lastMsgTime, s.buffer ++ d,
                s.messageCount⟩ hlt
          · simp only [stepEvent_delta_overflow s d t hfit, pacedTimes_append,
              pacedTimes_rot_ops, List.nil_append]
            have ih' := ih ⟨s.nextMsgId, s.nextMsgId + 1, t, d, s.messageCount + 1⟩
              (Nat.lt_succ_self _)
            refine ⟨ih'.1, ?_, ?_⟩
            · intro hne
              rcases ih'.2.1 hne with h1 | h2
              · have h1' : m = s.nextMsgId := h1
                omega
              · have h2' : s.nextMsgId + 1 ≤ m := h2
                omega
            · intro hm x hx
              exfalso
              have hne : pacedTimes (runEvents
                  (⟨s.nextMsgId, s.nextMsgId + 1, t, d, s.messageCount + 1⟩ :
                    EngineState) rest).2 m ≠ [] := by
                intro h0
                rw [h0] at hx
                simp at hx
              rcases ih'.2.1 hne with h1 | h2
              · have h1' : m = s.nextMsgId := h1
                omega
              · have h2' : s.nextMsgId + 1 ≤ m := h2
                omega

/-- Claim C8: paced in-progress edits of any one message never fire more
often than once per `messagesDelay` (1000 ms): in every engine trace,
successive paced-edit times of the same message are separated by strictly
more than `messagesDelay`.  The closing edit at rotation, the rotation
send, and the final flush are distinct non-paced operations (not
`Op.pacedEdit`) and are exempt. -/
theorem C8_paced_rate (returnMsgId : Nat) (startTime : Int)
    (events : List (StreamEvent × Int)) (m : Nat) :
    List.Chain' (fun a b => a + messagesDelay < b)
      (pacedTimes (streamTranscriptionToBot returnMsgId startTime events) m) := by
  have h := runEvents_paced_chain events (initState returnMsgId startTime)
    (Nat.lt_succ_self _) m
  simp only [streamTranscriptionToBot, pacedTimes_append]
  have hfin : pacedTimes
      [Op.finalEdit (runEvents (initState returnMsgId startTime) events).1.returnMsgId
        (runEvents (initState returnMsgId startTime) events).1.buffer] m = [] := by
    simp [pacedTimes]
  rw [hfin, List.append_nil]
  exact h.1

end TeleScribe
